import Mathlib

/-!

Shallow embedding of the parts of `lib/smtp-stream.js` and
`lib/smtp-connection.js` that the specification's claims are about.

Bytes are modelled as `Nat` (0x2e = 46 is `.`, 0x0d = 13 is CR,
0x0a = 10 is LF).  Buffers are `List Nat`.


`_feedDataStream` receives a chunk (with any retained `_lastBytes`
already prepended), and

* if `dataBytes = 0` and the chunk starts with `.\r\n`, ends data mode
  with an empty body;
* if `dataBytes = 0` and the chunk starts with `..`, drops the first dot;
* scans for the first index `i` with `2 <= i < len - 2` such that
  `chunk[i] = '.'` and `chunk[i-1] = '\n'`; if `chunk[i-2..i+2]`
  equals `\r\n.\r\n` it ends data mode (emitting `chunk[0..i)` when
  `i > 2`), and if `chunk[i+1] = '.'` it emits `chunk[0..i)` and
  recurses on `chunk[i+1..]` (the escape dot is dropped);
* otherwise it retains the last (up to) 4 bytes and emits the rest.

`scanSpecial` is the structural rendering of the `for` loop: position
`i` carries the two preceding bytes `p2 = chunk[i-2]`, `p1 = chunk[i-1]`
and the suffix `s = chunk[i..]`; the loop guard `i < len - 2` is
`2 ≤ rest.length` for `s = b :: rest`, the five-byte window
`chunk.slice(i-2, i+3)` is `[p2, p1, b] ++ rest.take 2`.
-/

/-- Outcome of feeding one (concatenated) chunk in data mode:
either the `\r\n.\r\n` terminator was found (`term emitted dataBytes rest`,
where `rest` is the unparsed tail kept for `continue()`), or data mode
stays open (`ongoing emitted dataBytes carry` with `carry` the retained
`_lastBytes`). -/
inductive FeedOut where
  | term (emitted : List Nat) (dataBytes : Nat) (rest : List Nat)
  | ongoing (emitted : List Nat) (dataBytes : Nat) (carry : List Nat)
deriving DecidableEq, Repr

/-- The `for (i = 2; i < len - 2; i++)` scan of `_feedDataStream`:
find the first position whose byte is `.` preceded by `\n` and which is
either the `\r\n.\r\n` terminator (`true`) or an escape dot (`false`). -/
def scanSpecial (p2 p1 : Nat) (s : List Nat) (i : Nat) : Option (Nat × Bool) :=
  match s with
  | [] => none
  | b :: rest =>
    if rest.length < 2 then none
    else if b = 46 ∧ p1 = 10 then
      if p2 = 13 ∧ rest.take 2 = [13, 10] then some (i, true)
      else if rest.head? = some 46 then some (i, false)
      else scanSpecial p1 b rest (i + 1)
    else scanSpecial p1 b rest (i + 1)

/-- Entry point of the scan: the loop starts at `i = 2`, so the first two
bytes only ever serve as lookbehind. -/
def findSpecial (chunk : List Nat) : Option (Nat × Bool) :=
  match chunk with
  | a0 :: a1 :: rest => scanSpecial a0 a1 rest 2
  | _ => none

/-- The check `!this.dataBytes && chunk[0] === 0x2e && chunk[1] === 0x2e`
pre-step: drop the first escape dot at the very start of the data. -/
def dropInitialDot (dataBytes : Nat) (chunk : List Nat) : List Nat :=
  if dataBytes = 0 ∧ chunk.take 2 = [46, 46] then chunk.drop 1 else chunk

/-- Model of `SMTPStream._feedDataStream` on one chunk (the retained `_lastBytes`
are assumed to be already concatenated in front, as the source does
first thing).  `_endDataMode`'s bookkeeping (`dataBytes += buf.length`)
is inlined into the returned `dataBytes`. -/
def feedChunk (dataBytes : Nat) (chunk : List Nat) : FeedOut :=
  if dataBytes = 0 ∧ chunk.take 3 = [46, 13, 10] then
    .term [] dataBytes (chunk.drop 3)
  else
    match h : findSpecial (dropInitialDot dataBytes chunk) with
    | some (i, true) =>
      if 2 < i then
        .term ((dropInitialDot dataBytes chunk).take i) (dataBytes + i)
          ((dropInitialDot dataBytes chunk).drop (i + 3))
      else
        .term [] dataBytes ((dropInitialDot dataBytes chunk).drop (i + 3))
    | some (i, false) =>
      match feedChunk (dataBytes + i) ((dropInitialDot dataBytes chunk).drop (i + 1)) with
      | .term em db r => .term ((dropInitialDot dataBytes chunk).take i ++ em) db r
      | .ongoing em db carry => .ongoing ((dropInitialDot dataBytes chunk).take i ++ em) db carry
    | none =>
      let c1 := dropInitialDot dataBytes chunk
      let keep := if c1.length < 4 then c1 else c1.drop (c1.length - 4)
      if keep.length < c1.length then
        .ongoing (c1.take (c1.length - keep.length)) (dataBytes + (c1.length - keep.length)) keep
      else .ongoing [] dataBytes keep
termination_by chunk.length
decreasing_by
  have h2 : (dropInitialDot dataBytes chunk).length ≤ chunk.length := by
    unfold dropInitialDot
    split
    · simp
    · exact Nat.le_refl _
  have h1 : (dropInitialDot dataBytes chunk).length ≠ 0 := by
    intro hz
    rw [List.length_eq_zero] at hz
    rw [hz] at h
    simp [findSpecial] at h
  have h3 : ((dropInitialDot dataBytes chunk).drop (i + 1)).length
      = (dropInitialDot dataBytes chunk).length - (i + 1) := by
    simp
  omega

/-- Effect of `startDataMode(maxBytes)`: `this._maxBytes = (maxBytes && Number(maxBytes)) || Infinity`.
`none` models `Infinity` (no configured limit, or a falsy value). -/
def startMaxBytes (maxBytes : Option Nat) : Option Nat :=
  match maxBytes with
  | some n => if n = 0 then none else some n
  | none => none

/-- Computation in `_endDataMode`: `this._dataStream.sizeExceeded = this.dataBytes > this._maxBytes`. -/
def sizeExceeded (dataBytes : Nat) (maxBytes : Option Nat) : Bool :=
  match maxBytes with
  | some m => dataBytes > m
  | none => false

/-!
Spec-side description of dot-unstuffing, from the claim's words:
"whenever the previous byte is LF (or the body starts) and the current
byte is `.` followed by another `.`, exactly one `.` is removed and not
emitted; all other bytes are forwarded unchanged."
-/

/-- One pass over the body; the flag records whether the current byte is
at a line boundary (start of body, or preceded by LF). -/
def specGo (atLineStart : Bool) : List Nat → List Nat
  | [] => []
  | b :: rest =>
    if atLineStart ∧ b = 46 ∧ rest.head? = some 46 then specGo false rest
    else b :: specGo (decide (b = 10)) rest

/-- Claim-side dot-unstuffing of a whole body. -/
def specUnstuff (body : List Nat) : List Nat := specGo true body

/-- A body line as the wire carries it: some content with no LF in it,
terminated by CRLF, and not the bare terminator line `.` (a body cannot
contain the terminator). -/
def wfLine (l : List Nat) : Prop :=
  ∃ c : List Nat, l = c ++ [13, 10] ∧ 10 ∉ c ∧ c ≠ [46]

/-- A valid DATA body: a sequence of wire lines. -/
def wfBody (ls : List (List Nat)) : Prop := ∀ l ∈ ls, wfLine l

/-- Per-line unstuffing: a line beginning with `..` loses one dot. -/
def unstuffLine (l : List Nat) : List Nat :=
  if l.take 2 = [46, 46] then l.drop 1 else l

/-- Unstuffed payload of a body. -/
def unstuffBody (ls : List (List Nat)) : List Nat :=
  (ls.map unstuffLine).flatten

/-- What `_feedDataStream` actually delivers for the whole stream
`body ++ ".\r\n"`: the unstuffed payload, except that a body consisting
of exactly one blank line loses its CRLF (the `i > 2` guard in the
terminator branch suppresses the emit). -/
def deliveredBody (ls : List (List Nat)) : List Nat :=
  if ls = [[13, 10]] then [] else unstuffBody ls

/-!

The scan of `_feedDataStream` is characterised on streams made of
well-formed lines: it passes over every line that does not begin with
an escape dot `..`, reports the first escape line, and otherwise
reports the final `.\r\n` terminator.
-/

/-- Last two bytes of the scan context after consuming a list. -/
def lastTwo (p2 p1 : Nat) : List Nat → Nat × Nat
  | [] => (p2, p1)
  | b :: rest => lastTwo p1 b rest

/-- A run of bytes in which no byte is a dot preceded by LF (so the scan
passes over it without firing). -/
def safeRun (p1 : Nat) : List Nat → Prop
  | [] => True
  | b :: rest => ¬(b = 46 ∧ p1 = 10) ∧ safeRun b rest

/-- Byte standing right before a position after consuming a list. -/
def lastByte (p1 : Nat) : List Nat → Nat
  | [] => p1
  | b :: rest => lastByte b rest

/-- A prefix the scan (which starts at index 2) passes through cleanly,
arriving at the bytes following it with a CRLF lookbehind. -/
def ScanThru (P : List Nat) : Prop :=
  ∃ p0 p1 pr, P = p0 :: p1 :: pr ∧
    ∀ (R : List Nat) (i : Nat), 2 ≤ R.length →
      scanSpecial p0 p1 (pr ++ R) i = scanSpecial 13 10 R (i + pr.length)

/-- Prepending already-available bytes to the output of a recursive
feed call (the two `match` arms of the escape-dot branch). -/
def consEmit (pre : List Nat) : FeedOut → FeedOut
  | .term em db r => .term (pre ++ em) db r
  | .ongoing em db carry => .ongoing (pre ++ em) db carry

/-- Body of `feedChunk` after the two `!this.dataBytes` checks: the scan
for an escape dot or the terminator, and the `_lastBytes` retention. -/
def feedScan (dataBytes : Nat) (c1 : List Nat) : FeedOut :=
  match findSpecial c1 with
  | some (i, true) =>
    if 2 < i then .term (c1.take i) (dataBytes + i) (c1.drop (i + 3))
    else .term [] dataBytes (c1.drop (i + 3))
  | some (i, false) =>
    consEmit (c1.take i) (feedChunk (dataBytes + i) (c1.drop (i + 1)))
  | none =>
    let keep := if c1.length < 4 then c1 else c1.drop (c1.length - 4)
    if keep.length < c1.length then
      .ongoing (c1.take (c1.length - keep.length)) (dataBytes + (c1.length - keep.length)) keep
    else .ongoing [] dataBytes keep

/-!

Session state, the `_onCommand` gate chain and the command handlers the
claims are about, with the collaborator callbacks (`onMailFrom`,
`onRcptTo`, `onData`, `onAuth`) abstracted into the command value: each
abstract command carries the verdict its callback would return.
-/

/-- Parsed address from `_parseAddressCommand` (`{ address, args }`).
Of the extension arguments only those the claims touch are kept: the
numeric value of `args.SIZE` when present, and whether the REQUIRETLS
flag was given. -/
structure Address where
  address : String
  sizeArg : Option Nat
  requireTls : Bool
deriving DecidableEq, Repr

/-- The transaction envelope (`session.envelope`). -/
structure Envelope where
  mailFrom : Option Address
  rcptTo : List Address
deriving DecidableEq, Repr

/-- Per-connection server configuration (the `_server.options`-derived
values the claims touch, fixed for the lifetime of the connection). -/
structure Config where
  lmtp : Bool
  authEnabled : Bool
  authOptional : Bool
  maxUnauth : Option Nat
  size : Option Nat
  hideSize : Bool
  starttlsAvailable : Bool
  allowInsecureAuth : Bool
  useXClient : Bool
  secureInit : Bool
deriving DecidableEq, Repr

/-- The mutable per-connection state the claims are about. -/
structure ConnState where
  ready : Bool
  secure : Bool
  hostNameAppearsAs : Option String
  user : Option String
  envelope : Envelope
  transactionCounter : Nat
  sessionTransaction : Nat
  unrecognizedCommands : Nat
  unauthenticatedCommands : Nat
  xclientHasAddr : Bool
  closing : Bool
deriving DecidableEq, Repr

/-- One client line together with the verdict of the server callback it
triggers (`accept` for `onMailFrom`/`onRcptTo`, `success` for `onData`,
`outcome` — the authenticated user on success — for `onAuth`).
`unknown` is any verb with no handler (or a disabled one); `http` is a
line matching the HTTP-request pattern; `xclientDeauth` is
`XCLIENT LOGIN=` with the empty value; `xclientLogin` is
`XCLIENT LOGIN=value` with a non-empty value, whose `outcome` is the
user produced by the proxy-initiated `onAuth` call of `SASL_XCLIENT`
(`none` when `onAuth` errors or returns no user). -/
inductive Cmd where
  | helo (hostname : String)
  | mail (parsed : Option Address) (accept : Bool)
  | rcpt (parsed : Option Address) (accept : Bool)
  | data (success : Bool)
  | rset
  | auth (outcome : Option String)
  | starttls
  | xclientDeauth
  | xclientLogin (outcome : Option String)
  | quit
  | noop
  | unknown
  | http
deriving DecidableEq, Repr

/-- `_resetSession`: fresh envelope; `session.transaction` is the
transaction counter plus one. -/
def resetSession (s : ConnState) : ConnState :=
  { s with envelope := ⟨none, []⟩, sessionTransaction := s.transactionCounter + 1 }

/-- State effect of `send(code, ...)`: a 421 response calls `close()`. -/
def sendCode (s : ConnState) (code : Nat) : ConnState :=
  if code = 421 then { s with closing := true } else s

def sendCodes (s : ConnState) (codes : List Nat) : ConnState :=
  codes.foldl sendCode s

/-- Result of one `_onCommand` dispatch: the response codes sent (in
order), the state afterwards, and whether the parser callback was
invoked (so that the next queued line will be processed). -/
structure StepOut where
  responses : List Nat
  state : ConnState
  cont : Bool
deriving DecidableEq, Repr

/-- The dedup-or-push loop of `handler_RCPT`: the first entry whose
lowercased address equals the new one is overwritten in place,
otherwise the new recipient is pushed. -/
def replaceOrAppend (l : List Address) (a : Address) : List Address :=
  match l with
  | [] => [a]
  | x :: xs =>
    if x.address.toLower = a.address.toLower then a :: xs
    else x :: replaceOrAppend xs a

/-- The SIZE check of `handler_MAIL`:
`!hideSize && size && parsed.args.SIZE && Number(parsed.args.SIZE) > size`. -/
def mailSizeBlocked (cfg : Config) (a : Address) : Bool :=
  !cfg.hideSize && (match cfg.size, a.sizeArg with
    | some limit, some v => decide (limit < v)
    | _, _ => false)

/-- The command handlers (`handler_EHLO`/`handler_HELO`, `handler_RSET`,
`handler_NOOP`, `handler_QUIT`, `handler_STARTTLS`, `handler_AUTH`,
`handler_MAIL`, `handler_RCPT`, `handler_DATA` with its completion
closure, and the `LOGIN=` paths of `handler_XCLIENT`: deauthentication
on an empty value, and `SASL_XCLIENT` on a non-empty one — the latter
sets `session.user` unconditionally on success, with no check of the
previous user and no STARTTLS gate, and on failure sends 550, closes
the connection and never invokes the parser callback), returning
response codes, new state and whether the callback runs. -/
def dispatch (cfg : Config) (s : ConnState) : Cmd → List Nat × ConnState × Bool
  | .helo h => ([250], resetSession { s with hostNameAppearsAs := some h.toLower }, true)
  | .rset => ([250], resetSession s, true)
  | .noop => ([250], s, true)
  | .quit => ([221], { s with closing := true }, true)
  | .starttls =>
    if s.secure then ([503], s, true)
    else ([220], { s with secure := true }, true)
  | .auth outcome =>
    if !s.secure && cfg.starttlsAvailable && !cfg.allowInsecureAuth then ([538], s, true)
    else if s.user.isSome then ([503], s, true)
    else match outcome with
      | some u => ([235], { s with user := some u }, true)
      | none => ([535], s, true)
  | .mail parsed accept =>
    match parsed with
    | none => ([501], s, true)
    | some a =>
      if s.envelope.mailFrom.isSome then ([503], s, true)
      else if mailSizeBlocked cfg a then ([552], s, true)
      else if accept then
        ([250], { s with envelope := { s.envelope with mailFrom := some a } }, true)
      else ([550], s, true)
  | .rcpt parsed accept =>
    match parsed with
    | none => ([501], s, true)
    | some a =>
      if s.envelope.mailFrom.isNone then ([503], s, true)
      else if accept then
        ([250], { s with envelope :=
          { s.envelope with rcptTo := replaceOrAppend s.envelope.rcptTo a } }, true)
      else ([550], s, true)
  | .data ok =>
    if s.envelope.rcptTo.isEmpty then ([503], s, true)
    else
      let completion := if cfg.lmtp then List.replicate s.envelope.rcptTo.length (if ok then 250 else 450)
                        else [if ok then 250 else 450]
      (354 :: completion,
        resetSession { s with
          transactionCounter := s.transactionCounter + 1,
          unrecognizedCommands := 0 }, true)
  | .xclientDeauth =>
    if s.xclientHasAddr || !cfg.useXClient then ([550], s, true)
    else if s.envelope.mailFrom.isSome then ([503], s, true)
    else ([220], { s with user := none }, true)
  | .xclientLogin outcome =>
    if s.xclientHasAddr || !cfg.useXClient then ([550], s, true)
    else if s.envelope.mailFrom.isSome then ([503], s, true)
    else match outcome with
      | some u => ([220], { s with user := some u }, true)
      | none => ([550], { s with closing := true }, false)
  | .unknown => ([], s, true)
  | .http => ([], s, true)

/-- Whether the verb is in `['MAIL', 'RCPT', 'DATA', 'AUTH']` (the
HELO-first gate). -/
def needsHost : Cmd → Bool
  | .mail _ _ | .rcpt _ _ | .data _ | .auth _ => true
  | _ => false

/-- Whether the verb is in `['MAIL', 'RCPT', 'DATA']` (the
authentication-required gate). -/
def needsAuth : Cmd → Bool
  | .mail _ _ | .rcpt _ _ | .data _ => true
  | _ => false

def isAuthCmd : Cmd → Bool
  | .auth _ => true
  | _ => false

/-- `_onCommand`: the early-talker and HTTP blocks, the
unrecognized-command counter, the unauthenticated-command counter, the
HELO-first gate, the authentication-required gate, then the handler.
The unknown and HTTP branches return without invoking the callback, as
do all 421 responses. -/
def onCommand (cfg : Config) (s : ConnState) (cmd : Cmd) : StepOut :=
  if !s.ready then ⟨[421], sendCodes s [421], false⟩
  else if cmd = .http then ⟨[421], sendCodes s [421], false⟩
  else if cmd = .unknown then
    let s1 := { s with unrecognizedCommands := s.unrecognizedCommands + 1 }
    if 10 ≤ s1.unrecognizedCommands then ⟨[421], sendCodes s1 [421], false⟩
    else ⟨[500], sendCodes s1 [500], true⟩
  else
    let gateOn : Bool := s.user.isNone && cfg.authEnabled && !isAuthCmd cmd && cfg.maxUnauth.isSome
    let s1 := if gateOn then { s with unauthenticatedCommands := s.unauthenticatedCommands + 1 } else s
    let overLimit : Bool := gateOn && (match cfg.maxUnauth with
      | some m => decide (m ≤ s1.unauthenticatedCommands)
      | none => false)
    if overLimit then ⟨[421], sendCodes s1 [421], false⟩
    else if needsHost cmd && s1.hostNameAppearsAs.isNone then
      ⟨[503], sendCodes s1 [503], true⟩
    else if needsAuth cmd && s1.user.isNone && cfg.authEnabled && !cfg.authOptional then
      ⟨[530], sendCodes s1 [530], true⟩
    else
      let d := dispatch cfg s1 cmd
      ⟨d.1, sendCodes d.2.1 d.1, d.2.2⟩

/-- Serialised processing of a list of lines: each next line is
dispatched only if the previous dispatch invoked its callback. -/
def runCmds (cfg : Config) : ConnState → List Cmd → List Nat × ConnState
  | s, [] => ([], s)
  | s, c :: cs =>
    let out := onCommand cfg s c
    if out.cont then
      let rest := runCmds cfg out.state cs
      (out.responses ++ rest.1, rest.2)
    else (out.responses, out.state)

/-- Connection state right after the 220 greeting (`connectionReady`
ran `_resetSession` and set `_ready`). -/
def initState (cfg : Config) : ConnState :=
  { ready := true, secure := cfg.secureInit, hostNameAppearsAs := none,
    user := none, envelope := ⟨none, []⟩, transactionCounter := 0,
    sessionTransaction := 1, unrecognizedCommands := 0,
    unauthenticatedCommands := 0, xclientHasAddr := false, closing := false }

/-- States a connection can be in after the greeting. -/
inductive Reachable (cfg : Config) : ConnState → Prop where
  | start : Reachable cfg (initState cfg)
  | step (s : ConnState) (cmd : Cmd) : Reachable cfg s →
      Reachable cfg ((onCommand cfg s cmd).state)

/-- Modelled from the spec: the REQUIRETLS validation branch of
`handler_MAIL`, which is absent from `src/lib/smtp-connection.js` (only
the tests in `src/test/test-resolver.js` exercise it).  Spec:
"`REQUIRETLS` only valid when the session is already secure; else 530",
and the EHLO feature is not offered unless explicitly enabled.  A MAIL
FROM carrying the REQUIRETLS parameter on a non-secure session is
answered 530 before `onMailFrom` runs, leaving the envelope unchanged;
otherwise the handler proceeds as in the source. -/
def handlerMailRequireTls (cfg : Config) (s : ConnState) (parsed : Option Address)
    (accept : Bool) : List Nat × ConnState × Bool :=
  match parsed with
  | some a =>
    if a.requireTls && !s.secure then ([530], s, true)
    else dispatch cfg s (.mail parsed accept)
  | none => dispatch cfg s (.mail parsed accept)

/-- Case-insensitive-address uniqueness of a recipient list. -/
def lowerNoDup (l : List Address) : Prop :=
  (l.map fun x => x.address.toLower).Nodup

/-! Claim C4: RCPT dedup by case-insensitive address — fixtures and helpers. -/

/-- Shared witness fixtures: a minimal configuration (no LMTP, AUTH
disabled, no limits, XCLIENT off, insecure socket) and a plain
recipient address. -/
def cfgW : Config := ⟨false, false, false, none, none, false, false, false, false, false⟩

def addrW : Address := ⟨"a@x", none, false⟩

/-- A command-mode state holding a one-recipient envelope. -/
def stData : ConnState := { initState cfgW with envelope := ⟨some addrW, [addrW]⟩ }

/-! Claim C5 fixtures: shared witness configuration and states. -/

/-- An address carrying the REQUIRETLS parameter. -/
def addrTls : Address := ⟨"a@x", none, true⟩

/-! Claim C6 fixture: a REQUIRETLS address. -/

/-- States reached by HELO, then an accepted MAIL and an accepted RCPT. -/
def stHelo : ConnState := (onCommand cfgW (initState cfgW) (.helo "c")).state

def stMail : ConnState := (onCommand cfgW stHelo (.mail (some addrW) true)).state

def stRcpt : ConnState := (onCommand cfgW stMail (.rcpt (some addrW) true)).state

/-! Claim C7 fixtures: a reachable HELO, MAIL, RCPT trace. -/

/-- Configuration with authentication enabled and optional, XCLIENT
usable, no STARTTLS offered (no 538 gate) and no unauthenticated-command
limit. -/
def cfg9 : Config := ⟨false, true, true, none, none, false, false, false, true, false⟩

def st9a : ConnState := (onCommand cfg9 (initState cfg9) (.helo "c")).state

def st9b : ConnState := (onCommand cfg9 st9a (.auth (some "u1"))).state

def st9c : ConnState := (onCommand cfg9 st9b .xclientDeauth).state

def st9d : ConnState := (onCommand cfg9 st9c (.auth (some "u2"))).state

/-- Configuration like `cfg9` but with STARTTLS offered and insecure
AUTH disallowed, so the 538 gate of `handler_AUTH` is live on the
cleartext socket. -/
def cfg9b : Config := ⟨false, true, true, none, none, false, true, false, true, false⟩

/-- State after HELO and a successful `XCLIENT LOGIN=x1` under `cfg9b`. -/
def st9e : ConnState :=
  (onCommand cfg9b ((onCommand cfg9b (initState cfg9b) (.helo "c")).state)
    (.xclientLogin (some "x1"))).state

/-! Claim C9 and C10 fixtures. -/

/-- A connection that has not yet reached readiness (`_ready` false):
any command line on it draws the early-talker 421. -/
def stOff : ConnState := { initState cfgW with ready := false }

theorem dropInitialDot_length_le (dataBytes : Nat) (chunk : List Nat) :
    (dropInitialDot dataBytes chunk).length ≤ chunk.length := by
  unfold dropInitialDot
  split
  · simp
  · exact Nat.le_refl _

theorem lastTwo_append_pair (u v : Nat) :
    ∀ (y : List Nat) (p2 p1 : Nat), lastTwo p2 p1 (y ++ [u, v]) = (u, v) := by
  intro y
  induction y with
  | nil => intro p2 p1; rfl
  | cons b rest ih => intro p2 p1; exact ih p1 b

theorem safeRun_crlf (q : Nat) : safeRun q [13, 10] := by
  simp [safeRun]

theorem safeRun_noLF : ∀ (x : List Nat) (p1 : Nat), 10 ∉ x → p1 ≠ 10 → safeRun p1 x := by
  intro x
  induction x with
  | nil => intro p1 _ _; trivial
  | cons b rest ih =>
    intro p1 hmem hp
    refine ⟨fun hb => hp hb.2, ?_⟩
    exact ih b (fun h => hmem (List.mem_cons_of_mem _ h)) (fun h => hmem (h ▸ List.mem_cons_self _ _))

theorem safeRun_append : ∀ (x : List Nat) (p1 : Nat) (y : List Nat),
    safeRun p1 x → safeRun (lastByte p1 x) y → safeRun p1 (x ++ y) := by
  intro x
  induction x with
  | nil => intro p1 y _ hy; exact hy
  | cons b rest ih =>
    intro p1 y hx hy
    exact ⟨hx.1, ih b y hx.2 hy⟩

theorem safeRun_tail_line (c : List Nat) (p1 : Nat) (hc : 10 ∉ c) (hp : p1 ≠ 10) :
    safeRun p1 (c ++ [13, 10]) :=
  safeRun_append c p1 [13, 10] (safeRun_noLF c p1 hc hp) (safeRun_crlf _)

theorem scan_through : ∀ (x : List Nat) (p2 p1 i : Nat) (R : List Nat),
    2 ≤ R.length → safeRun p1 x →
    scanSpecial p2 p1 (x ++ R) i
      = scanSpecial (lastTwo p2 p1 x).1 (lastTwo p2 p1 x).2 R (i + x.length) := by
  intro x
  induction x with
  | nil => intro p2 p1 i R hR _; simp [lastTwo]
  | cons b rest ih =>
    intro p2 p1 i R hR hs
    obtain ⟨hb, hrest⟩ := hs
    show scanSpecial p2 p1 (b :: (rest ++ R)) i = _
    rw [scanSpecial]
    have hlen : ¬((rest ++ R).length < 2) := by simp; omega
    rw [if_neg hlen, if_neg hb, ih p1 b (i + 1) R hR hrest]
    have harith : i + 1 + rest.length = i + (b :: rest).length := by
      simp; omega
    rw [harith]
    rfl

theorem scanThru_content (x : List Nat) (hx : 10 ∉ x) : ScanThru (x ++ [13, 10]) := by
  match x with
  | [] =>
    refine ⟨13, 10, [], rfl, fun R i hR => ?_⟩
    simp
  | [a] =>
    refine ⟨a, 13, [10], rfl, fun R i hR => ?_⟩
    rw [List.singleton_append, scanSpecial]
    have hlen : ¬(R.length < 2) := by omega
    rw [if_neg hlen]
    have h46 : ¬((10 : Nat) = 46 ∧ (13 : Nat) = 10) := by simp
    rw [if_neg h46]
    simp
  | a :: b :: xr =>
    refine ⟨a, b, xr ++ [13, 10], by simp, fun R i hR => ?_⟩
    have hsafe : safeRun b (xr ++ [13, 10]) := by
      refine safeRun_tail_line xr b ?_ ?_
      · intro h; exact hx (by simp [h])
      · intro h; exact hx (by simp [h])
    rw [scan_through _ a b i R hR hsafe, lastTwo_append_pair]

theorem scanSpecial_line (l : List Nat) (hl : wfLine l) (hesc : l.take 2 ≠ [46, 46]) :
    ∀ (R : List Nat) (i : Nat), 2 ≤ R.length →
      scanSpecial 13 10 (l ++ R) i = scanSpecial 13 10 R (i + l.length) := by
  obtain ⟨c, rfl, h10, hne⟩ := hl
  intro R i hR
  match c with
  | [] =>
    show scanSpecial 13 10 (13 :: 10 :: R) i = scanSpecial 13 10 R (i + 2)
    rw [scanSpecial]
    have hlen : ¬((10 :: R).length < 2) := by simp; omega
    rw [if_neg hlen]
    have hc1 : ¬((13 : Nat) = 46 ∧ (10 : Nat) = 10) := by simp
    rw [if_neg hc1, scanSpecial]
    have hlen2 : ¬(R.length < 2) := by omega
    rw [if_neg hlen2]
    have hc2 : ¬((10 : Nat) = 46 ∧ (13 : Nat) = 10) := by simp
    rw [if_neg hc2]
  | a :: cr =>
    have ha10 : a ≠ 10 := by
      intro h
      exact h10 (by simp [h])
    have hcr10 : 10 ∉ cr := by
      intro h
      exact h10 (by simp [h])
    by_cases ha : a = 46
    · subst ha
      match cr with
      | [] => exact absurd rfl hne
      | d :: cr1 =>
        have hd46 : d ≠ 46 := by
          intro h
          apply hesc
          simp [h]
        have hd10 : 10 ∉ d :: cr1 := hcr10
        simp only [List.cons_append]
        rw [scanSpecial]
        have hlen : ¬((d :: ((cr1 ++ [13, 10]) ++ R)).length < 2) := by simp; omega
        rw [if_neg hlen]
        have hdot : ((46 : Nat) = 46 ∧ (10 : Nat) = 10) := ⟨rfl, rfl⟩
        rw [if_pos hdot]
        have hterm : ¬((13 : Nat) = 13 ∧ (d :: ((cr1 ++ [13, 10]) ++ R)).take 2 = [13, 10]) := by
          rintro ⟨-, htk⟩
          match cr1 with
          | [] => simp at htk
          | e :: cr2 =>
            have he10 : e ≠ 10 := by
              intro h
              exact h10 (by simp [h])
            simp at htk
            exact he10 htk.2
        rw [if_neg hterm]
        have hef : ¬((d :: ((cr1 ++ [13, 10]) ++ R)).head? = some 46) := by
          simp [hd46]
        rw [if_neg hef, scanSpecial]
        have hlen2 : ¬(((cr1 ++ [13, 10]) ++ R).length < 2) := by simp; omega
        rw [if_neg hlen2]
        have hc2 : ¬(d = 46 ∧ (46 : Nat) = 10) := by simp
        rw [if_neg hc2]
        have hd10s : d ≠ 10 := by
          intro h
          exact hd10 (by simp [h])
        have hcr110 : 10 ∉ cr1 := by
          intro h
          exact hd10 (by simp [h])
        have hsafe : safeRun d (cr1 ++ [13, 10]) := safeRun_tail_line cr1 d hcr110 hd10s
        rw [scan_through _ 46 d (i + 1 + 1) R hR hsafe, lastTwo_append_pair]
        congr 1
        simp only [List.length_cons, List.length_append, List.length_nil]
        omega
    · simp only [List.cons_append]
      rw [scanSpecial]
      have hlen : ¬(((cr ++ [13, 10]) ++ R).length < 2) := by simp; omega
      rw [if_neg hlen]
      have hc1 : ¬(a = 46 ∧ (10 : Nat) = 10) := by simp [ha]
      rw [if_neg hc1]
      rw [scan_through _ 10 a (i + 1) R hR (safeRun_tail_line cr a hcr10 ha10)]
      rw [lastTwo_append_pair]
      congr 1
      simp only [List.length_cons, List.length_append, List.length_nil]
      omega

theorem scanThru_append (P l : List Nat) (hP : ScanThru P) (hl : wfLine l)
    (hesc : l.take 2 ≠ [46, 46]) : ScanThru (P ++ l) := by
  obtain ⟨p0, p1, pr, rfl, hscan⟩ := hP
  refine ⟨p0, p1, pr ++ l, by simp, fun R i hR => ?_⟩
  rw [List.append_assoc]
  have hlR : 2 ≤ (l ++ R).length := by simp; omega
  rw [hscan (l ++ R) i hlR]
  rw [scanSpecial_line l hl hesc R (i + pr.length) hR]
  congr 1
  simp only [List.length_append]
  omega

theorem scan_term_end (i : Nat) : scanSpecial 13 10 [46, 13, 10] i = some (i, true) := rfl

theorem scan_escape (Y : List Nat) (hY : Y ≠ []) (i : Nat) :
    scanSpecial 13 10 (46 :: 46 :: Y) i = some (i, false) := by
  have hpos : 0 < Y.length := List.length_pos.mpr hY
  rw [scanSpecial]
  have hlen : ¬((46 :: Y).length < 2) := by simp; omega
  rw [if_neg hlen]
  have hdot : ((46 : Nat) = 46 ∧ (10 : Nat) = 10) := ⟨rfl, rfl⟩
  rw [if_pos hdot]
  have hterm : ¬((13 : Nat) = 13 ∧ (46 :: Y).take 2 = [13, 10]) := by
    rintro ⟨-, htk⟩
    simp [List.take_cons] at htk
  rw [if_neg hterm]
  have hesc : ((46 :: Y).head? = some 46) := rfl
  rw [if_pos hesc]

theorem findSpecial_cons2 (p0 p1 : Nat) (pr X : List Nat) :
    findSpecial ((p0 :: p1 :: pr) ++ X) = scanSpecial p0 p1 (pr ++ X) 2 := rfl

theorem feedChunk_eq (dataBytes : Nat) (chunk : List Nat) :
    feedChunk dataBytes chunk =
      if dataBytes = 0 ∧ chunk.take 3 = [46, 13, 10] then
        FeedOut.term [] dataBytes (chunk.drop 3)
      else feedScan dataBytes (dropInitialDot dataBytes chunk) := by
  rw [feedChunk.eq_def]
  by_cases h0 : dataBytes = 0 ∧ chunk.take 3 = [46, 13, 10]
  · rw [if_pos h0, if_pos h0]
  · rw [if_neg h0, if_neg h0]
    rcases hfs : findSpecial (dropInitialDot dataBytes chunk) with - | ⟨i, b⟩
    · simp only [hfs, feedScan]
    · cases b
      · simp only [hfs, feedScan]
        rcases feedChunk (dataBytes + i) ((dropInitialDot dataBytes chunk).drop (i + 1)) with
          ⟨em, db, r⟩ | ⟨em, db, carry⟩ <;> simp [consEmit]
      · simp only [hfs, feedScan]

theorem wfLine_two_le (l : List Nat) (hl : wfLine l) : 2 ≤ l.length := by
  obtain ⟨c, rfl, -, -⟩ := hl
  simp

theorem dropInitialDot_pos (dataBytes : Nat) (chunk : List Nat) (h : dataBytes ≠ 0) :
    dropInitialDot dataBytes chunk = chunk := by
  unfold dropInitialDot
  rw [if_neg]
  rintro ⟨h0, -⟩
  exact h h0

/-- Main characterisation of the data-mode scan loop on a well-formed
body preceded by an already-passed prefix `P`: every line is forwarded
(with escape lines losing their first dot), the final `.\r\n` is
consumed, and nothing remains after the terminator.  The degenerate
case `P = [two bytes]` with no lines is the `i > 2` guard of the
terminator branch: the two pending bytes are dropped. -/
theorem feedScan_main : ∀ (ls : List (List Nat)), wfBody ls →
    ∀ (P : List Nat) (dataBytes : Nat), ScanThru P →
    feedScan dataBytes (P ++ (ls.flatten ++ [46, 13, 10])) =
      if P.length = 2 ∧ ls = [] then FeedOut.term [] dataBytes []
      else FeedOut.term (P ++ unstuffBody ls)
        (dataBytes + P.length + (unstuffBody ls).length) [] := by
  intro ls
  induction ls with
  | nil =>
    intro _ P dataBytes hP
    obtain ⟨p0, p1, pr, rfl, hscan⟩ := hP
    have hfind : findSpecial ((p0 :: p1 :: pr) ++ (List.flatten ([] : List (List Nat)) ++ [46, 13, 10]))
        = some (2 + pr.length, true) := by
      rw [findSpecial_cons2]
      simp only [List.flatten_nil, List.nil_append]
      rw [hscan [46, 13, 10] 2 (by simp)]
      rw [scan_term_end]
    simp only [feedScan, hfind]
    by_cases hpr : pr = []
    · subst hpr
      rw [if_neg (by simp)]
      rw [if_pos (by simp)]
      simp
    · have hpos : 0 < pr.length := List.length_pos.mpr hpr
      rw [if_pos (show 2 < 2 + pr.length by omega)]
      rw [if_neg (by simp [hpr])]
      have hidx : 2 + pr.length = (p0 :: p1 :: pr).length := by
        simp only [List.length_cons]
        omega
      rw [hidx, List.drop_append, List.take_left]
      simp [unstuffBody]
  | cons l ls1 ih =>
    intro hwf P dataBytes hP
    have hl : wfLine l := hwf l (by simp)
    have hwf1 : wfBody ls1 := fun m hm => hwf m (by simp [hm])
    have hl2 : 2 ≤ l.length := wfLine_two_le l hl
    by_cases hesc : l.take 2 = [46, 46]
    · -- the first line begins with an escape dot
      obtain ⟨c, hc, h10, hne⟩ := hl
      subst hc
      obtain ⟨c2, rfl⟩ : ∃ c2, c = 46 :: 46 :: c2 := by
        rcases c with - | ⟨x, - | ⟨y, c2⟩⟩
        · simp at hesc
        · simp at hesc
        · simp at hesc
          exact ⟨c2, by rw [hesc.1, hesc.2]⟩
      obtain ⟨p0, p1, pr, rfl, hscan⟩ := hP
      have h10c2 : 10 ∉ (46 : Nat) :: c2 := by
        intro h
        rcases List.mem_cons.mp h with h1 | h2
        · exact absurd h1 (by norm_num)
        · exact h10 (by simp [h2])
      have hfind : findSpecial ((p0 :: p1 :: pr)
            ++ ((((46 :: 46 :: c2) ++ [13, 10]) :: ls1).flatten ++ [46, 13, 10]))
          = some (2 + pr.length, false) := by
        rw [findSpecial_cons2]
        rw [hscan _ 2 (by simp)]
        simp only [List.flatten_cons, List.cons_append, List.append_assoc]
        rw [scan_escape _ (by simp)]
      simp only [feedScan, hfind]
      have hdb : dataBytes + (2 + pr.length) ≠ 0 := by omega
      have hdrop : ((p0 :: p1 :: pr)
            ++ ((((46 :: 46 :: c2) ++ [13, 10]) :: ls1).flatten ++ [46, 13, 10])).drop
              (2 + pr.length + 1)
          = ((46 :: c2) ++ [13, 10]) ++ (ls1.flatten ++ [46, 13, 10]) := by
        have hidx : 2 + pr.length + 1 = (p0 :: p1 :: pr).length + 1 := by
          simp only [List.length_cons]
          omega
        rw [hidx, List.drop_append]
        simp [List.flatten_cons, List.append_assoc]
      have htake : ((p0 :: p1 :: pr)
            ++ ((((46 :: 46 :: c2) ++ [13, 10]) :: ls1).flatten ++ [46, 13, 10])).take
              (2 + pr.length)
          = p0 :: p1 :: pr := by
        have hidx : 2 + pr.length = (p0 :: p1 :: pr).length := by
          simp only [List.length_cons]
          omega
        rw [hidx, List.take_left]
      have hrec : feedChunk (dataBytes + (2 + pr.length))
            (((46 :: c2) ++ [13, 10]) ++ (ls1.flatten ++ [46, 13, 10]))
          = FeedOut.term (((46 :: c2) ++ [13, 10]) ++ unstuffBody ls1)
              ((dataBytes + (2 + pr.length)) + ((46 :: c2) ++ [13, 10]).length
                + (unstuffBody ls1).length) [] := by
        rw [feedChunk_eq]
        rw [if_neg (by rintro ⟨h0, -⟩; exact hdb h0)]
        rw [dropInitialDot_pos _ _ hdb]
        rw [ih hwf1 ((46 :: c2) ++ [13, 10]) (dataBytes + (2 + pr.length))
          (scanThru_content (46 :: c2) h10c2)]
        rw [if_neg (by
          rintro ⟨hx, -⟩
          simp only [List.length_append, List.length_cons, List.length_nil] at hx
          omega)]
      rw [hdrop, htake, hrec]
      rw [if_neg (by rintro ⟨-, hx⟩; exact List.cons_ne_nil _ _ hx)]
      have huns : unstuffBody (((46 :: 46 :: c2) ++ [13, 10]) :: ls1)
          = ((46 :: c2) ++ [13, 10]) ++ unstuffBody ls1 := by
        simp only [unstuffBody, List.map_cons, List.flatten_cons]
        congr 1
      rw [consEmit, huns]
      simp only [FeedOut.term.injEq]
      refine ⟨by simp, by simp only [List.length_append, List.length_cons, List.length_nil]; omega, trivial⟩
    · -- the first line is forwarded unchanged
      have hthru : ScanThru (P ++ l) := scanThru_append P l hP hl hesc
      have hassoc : P ++ ((l :: ls1).flatten ++ [46, 13, 10])
          = (P ++ l) ++ (ls1.flatten ++ [46, 13, 10]) := by
        simp [List.flatten_cons, List.append_assoc]
      rw [hassoc, ih hwf1 (P ++ l) dataBytes hthru]
      obtain ⟨p0, p1, pr, rfl, -⟩ := hP
      rw [if_neg (by
        rintro ⟨hx, -⟩
        simp only [List.length_append, List.length_cons] at hx
        omega)]
      rw [if_neg (by rintro ⟨-, hx⟩; exact List.cons_ne_nil _ _ hx)]
      have huns : unstuffBody (l :: ls1) = l ++ unstuffBody ls1 := by
        simp only [unstuffBody, List.map_cons, List.flatten_cons]
        congr 1
        simp only [unstuffLine]
        rw [if_neg hesc]
      rw [huns]
      simp only [FeedOut.term.injEq]
      refine ⟨by simp, by simp only [List.length_append, List.length_cons]; omega, trivial⟩

theorem wfLine_ne_start (l : List Nat) (hl : wfLine l) (F : List Nat) :
    ((l ++ F) ++ [46, 13, 10]).take 3 ≠ [46, 13, 10] := by
  obtain ⟨c, rfl, h10, hne⟩ := hl
  rcases c with - | ⟨a, - | ⟨d, cr2⟩⟩
  · simp
  · -- c = [a]: equality would force a = 46, excluded by c ≠ [46]
    intro h
    simp at h
    exact hne (by rw [h])
  · -- c = a :: d :: cr2
    rcases cr2 with - | ⟨e, cr3⟩
    · intro h
      simp at h
    · intro h
      simp at h
      have he : e ≠ 10 := by
        intro hh
        exact h10 (by simp [hh])
      exact he h.2.2

/-- Model of feeding the whole DATA input `body ++ ".\r\n"` to
`_feedDataStream` as a single chunk, starting from a fresh
`startDataMode` state (`dataBytes = 0`): data mode terminates, the
delivered body is `deliveredBody`, `dataBytes` counts exactly the
delivered bytes and no unparsed tail remains. -/
theorem feedChunk_body (ls : List (List Nat)) (hwf : wfBody ls) :
    feedChunk 0 (ls.flatten ++ [46, 13, 10])
      = FeedOut.term (deliveredBody ls) (deliveredBody ls).length [] := by
  rcases ls with - | ⟨l, ls1⟩
  · rw [feedChunk_eq]
    rw [if_pos ⟨rfl, by simp⟩]
    simp [deliveredBody, unstuffBody]
  · have hl : wfLine l := hwf l (by simp)
    have hwf1 : wfBody ls1 := fun m hm => hwf m (by simp [hm])
    have hl2 : 2 ≤ l.length := wfLine_two_le l hl
    have hstream : (l :: ls1).flatten ++ [46, 13, 10]
        = (l ++ ls1.flatten) ++ [46, 13, 10] := by
      simp
    rw [feedChunk_eq]
    rw [if_neg (by
      rintro ⟨-, h3⟩
      rw [hstream] at h3
      exact wfLine_ne_start l hl ls1.flatten h3)]
    by_cases hesc : l.take 2 = [46, 46]
    · -- first line starts with an escape dot: the initial dot is dropped
      obtain ⟨c, hc, h10, hne⟩ := hl
      subst hc
      obtain ⟨c2, rfl⟩ : ∃ c2, c = 46 :: 46 :: c2 := by
        rcases c with - | ⟨x, - | ⟨y, c2⟩⟩
        · simp at hesc
        · simp at hesc
        · simp at hesc
          exact ⟨c2, by rw [hesc.1, hesc.2]⟩
      have h10c2 : 10 ∉ (46 : Nat) :: c2 := by
        intro h
        rcases List.mem_cons.mp h with h1 | h2
        · exact absurd h1 (by norm_num)
        · exact h10 (by simp [h2])
      have hdid : dropInitialDot 0 ((((46 :: 46 :: c2) ++ [13, 10]) :: ls1).flatten ++ [46, 13, 10])
          = ((46 :: c2) ++ [13, 10]) ++ (ls1.flatten ++ [46, 13, 10]) := by
        unfold dropInitialDot
        rw [if_pos ⟨rfl, by simp⟩]
        simp [List.append_assoc]
      rw [hdid]
      rw [feedScan_main ls1 hwf1 ((46 :: c2) ++ [13, 10]) 0 (scanThru_content (46 :: c2) h10c2)]
      rw [if_neg (by
        rintro ⟨hx, -⟩
        simp only [List.length_append, List.length_cons, List.length_nil] at hx
        omega)]
      have hcorner : ¬((((46 :: 46 :: c2) ++ [13, 10]) :: ls1) = [[13, 10]]) := by
        intro h
        have := (List.cons_eq_cons.mp h).1
        simp at this
      rw [deliveredBody, if_neg hcorner]
      have huns : unstuffBody (((46 :: 46 :: c2) ++ [13, 10]) :: ls1)
          = ((46 :: c2) ++ [13, 10]) ++ unstuffBody ls1 := by
        simp only [unstuffBody, List.map_cons, List.flatten_cons]
        congr 1
      rw [huns]
      congr 1
      simp only [List.length_append, List.length_cons, List.length_nil]
      omega
    · -- first line forwarded unchanged
      have hdid : dropInitialDot 0 ((l :: ls1).flatten ++ [46, 13, 10])
          = l ++ (ls1.flatten ++ [46, 13, 10]) := by
        unfold dropInitialDot
        rw [if_neg (by
          rintro ⟨-, h2⟩
          rw [hstream, List.append_assoc] at h2
          rw [List.take_append_of_le_length (by omega)] at h2
          exact hesc h2)]
        simp [List.append_assoc]
      rw [hdid]
      have hthru : ScanThru l := by
        obtain ⟨c, hc, h10, -⟩ := hl
        rw [hc]
        exact scanThru_content c h10
      rw [feedScan_main ls1 hwf1 l 0 hthru]
      by_cases hco : l.length = 2 ∧ ls1 = []
      · -- the dropped single blank line
        obtain ⟨hlen2, rfl⟩ := hco
        have hblank : l = [13, 10] := by
          obtain ⟨c, hc, -, -⟩ := hl
          rcases c with - | ⟨x, cx⟩
          · exact hc
          · rw [hc] at hlen2
            simp at hlen2
        subst hblank
        rw [if_pos ⟨rfl, rfl⟩]
        rw [deliveredBody, if_pos rfl]
        simp
      · rw [if_neg hco]
        have hcorner : ¬(l :: ls1 = [[13, 10]]) := by
          intro h
          obtain ⟨h1, h2⟩ := List.cons_eq_cons.mp h
          exact hco ⟨by simp [h1], h2⟩
        rw [deliveredBody, if_neg hcorner]
        have huns : unstuffBody (l :: ls1) = l ++ unstuffBody ls1 := by
          simp only [unstuffBody, List.map_cons, List.flatten_cons]
          congr 1
          simp only [unstuffLine]
          rw [if_neg hesc]
        rw [huns]
        congr 1
        simp only [List.length_append]
        omega

/-- Immediate termination on an initial `.\r\n`: an empty body, and the
tail after the terminator is kept unparsed. -/
theorem feedChunk_initial_dot (r : List Nat) :
    feedChunk 0 ([46, 13, 10] ++ r) = FeedOut.term [] 0 r := by
  rw [feedChunk_eq]
  rw [if_pos ⟨rfl, by simp⟩]
  simp

theorem specGo_cons (f : Bool) (b : Nat) (rest : List Nat) :
    specGo f (b :: rest)
      = if f ∧ b = 46 ∧ rest.head? = some 46 then specGo false rest
        else b :: specGo (decide (b = 10)) rest := rfl

theorem specGo_false_through : ∀ (x r : List Nat), 10 ∉ x →
    specGo false (x ++ (13 :: 10 :: r)) = x ++ 13 :: 10 :: specGo true r := by
  intro x
  induction x with
  | nil =>
    intro r _
    rw [List.nil_append, specGo_cons]
    rw [if_neg (by simp)]
    rw [specGo_cons]
    rw [if_neg (by simp)]
    simp
  | cons b x1 ih =>
    intro r hmem
    have hb : b ≠ 10 := fun h => hmem (by simp [h])
    have hx1 : 10 ∉ x1 := fun h => hmem (by simp [h])
    rw [List.cons_append, specGo_cons]
    rw [if_neg (by simp)]
    rw [show (decide (b = 10)) = false from decide_eq_false hb]
    rw [ih r hx1]
    simp

theorem specGo_line (l : List Nat) (hl : wfLine l) (r : List Nat) :
    specGo true (l ++ r) = unstuffLine l ++ specGo true r := by
  obtain ⟨c, rfl, h10, hne⟩ := hl
  have huL : unstuffLine (c ++ [13, 10]) = if c.take 2 = [46, 46]
      then (c ++ [13, 10]).drop 1 else c ++ [13, 10] := by
    simp only [unstuffLine]
    rcases c with - | ⟨a, - | ⟨d, c2⟩⟩ <;> simp
  rcases c with - | ⟨a, c1⟩
  · -- blank line
    rw [huL]
    rw [if_neg (by simp)]
    simp only [List.nil_append, List.cons_append]
    rw [specGo_cons]
    rw [if_neg (by simp)]
    rw [specGo_cons]
    rw [if_neg (by simp)]
    simp
  · have ha10 : a ≠ 10 := fun h => h10 (by simp [h])
    have hc110 : 10 ∉ c1 := fun h => h10 (by simp [h])
    by_cases ha : a = 46
    · subst ha
      rcases c1 with - | ⟨d, c2⟩
      · exact absurd rfl hne
      · have hd10 : d ≠ 10 := fun h => h10 (by simp [h])
        have hc210 : 10 ∉ c2 := fun h => h10 (by simp [h])
        by_cases hd : d = 46
        · subst hd
          rw [huL, if_pos (by simp)]
          simp only [List.cons_append]
          rw [specGo_cons]
          rw [if_pos (by simp)]
          rw [specGo_cons]
          rw [if_neg (by simp)]
          rw [show (decide ((46 : Nat) = 10)) = false from by decide]
          rw [show (c2 ++ [13, 10]) ++ r = c2 ++ (13 :: 10 :: r) from by simp]
          rw [specGo_false_through c2 r hc210]
          simp
        · rw [huL, if_neg (by simp [hd])]
          simp only [List.cons_append]
          rw [specGo_cons]
          rw [if_neg (by simp [hd])]
          rw [show (decide ((46 : Nat) = 10)) = false from by decide]
          rw [specGo_cons]
          rw [if_neg (by simp)]
          rw [show (decide (d = 10)) = false from decide_eq_false hd10]
          rw [show (c2 ++ [13, 10]) ++ r = c2 ++ (13 :: 10 :: r) from by simp]
          rw [specGo_false_through c2 r hc210]
          simp
    · rw [huL, if_neg (by rcases c1 with - | ⟨d, c2⟩ <;> simp [ha])]
      simp only [List.cons_append]
      rw [specGo_cons]
      rw [if_neg (by simp [ha])]
      rw [show (decide (a = 10)) = false from decide_eq_false ha10]
      rw [show (c1 ++ [13, 10]) ++ r = c1 ++ (13 :: 10 :: r) from by simp]
      rw [specGo_false_through c1 r hc110]
      simp

theorem specUnstuff_body (ls : List (List Nat)) (hwf : wfBody ls) :
    specUnstuff ls.flatten = unstuffBody ls := by
  induction ls with
  | nil => rfl
  | cons l ls1 ih =>
    have hl : wfLine l := hwf l (by simp)
    have hwf1 : wfBody ls1 := fun m hm => hwf m (by simp [hm])
    rw [List.flatten_cons]
    show specGo true (l ++ ls1.flatten) = _
    rw [specGo_line l hl ls1.flatten]
    rw [show specGo true ls1.flatten = specUnstuff ls1.flatten from rfl]
    rw [ih hwf1]
    simp [unstuffBody]

/-! Theorems for the stream claims C1, C2, C3. -/

/-- C1 (amended): for every DATA-mode byte stream whose body is a
well-formed sequence of CRLF lines other than the single blank line,
the body delivered to the data stream equals the original body with, at
each line boundary, a leading `..` reduced to `.` (the claim's wording,
rendered by `specUnstuff`), all other bytes forwarded unchanged.  The
excluded single-blank-line body is delivered empty, refuting the
unrestricted claim (`c1_counterexample`). -/
theorem c1_dot_unstuffing (ls : List (List Nat)) (hwf : wfBody ls)
    (hnb : ls ≠ [[13, 10]]) :
    feedChunk 0 (ls.flatten ++ [46, 13, 10])
      = FeedOut.term (specUnstuff ls.flatten) (specUnstuff ls.flatten).length [] := by
  have hd : deliveredBody ls = unstuffBody ls := by
    unfold deliveredBody
    rw [if_neg hnb]
  rw [feedChunk_body ls hwf, hd, specUnstuff_body ls hwf]

/-- C1 counterexample: for the DATA stream `\r\n.\r\n` — the body is a
single blank line — the parser delivers an empty body, although the
claim requires the CR LF bytes to be forwarded unchanged
(`specUnstuff [13, 10] = [13, 10]`). -/
theorem c1_counterexample :
    feedChunk 0 ([13, 10] ++ [46, 13, 10]) = FeedOut.term [] 0 []
    ∧ specUnstuff [13, 10] = [13, 10]
    ∧ FeedOut.term [] 0 ([] : List Nat)
        ≠ FeedOut.term (specUnstuff [13, 10]) (specUnstuff [13, 10]).length [] := by
  refine ⟨?_, by decide, by decide⟩
  have hwf : wfBody [[13, 10]] := by
    intro l hl
    simp only [List.mem_singleton] at hl
    subst hl
    exact ⟨[], rfl, by simp, by simp⟩
  have hb := feedChunk_body [[13, 10]] hwf
  simpa [deliveredBody] using hb

/-- C1 witness: the concrete body `hi\r\n..a\r\n` is delivered as
`hi\r\n.a\r\n`. -/
theorem c1_witness :
    wfBody [[104, 105, 13, 10], [46, 46, 97, 13, 10]]
    ∧ ([[104, 105, 13, 10], [46, 46, 97, 13, 10]] : List (List Nat)) ≠ [[13, 10]]
    ∧ feedChunk 0 [104, 105, 13, 10, 46, 46, 97, 13, 10, 46, 13, 10]
        = FeedOut.term [104, 105, 13, 10, 46, 97, 13, 10] 8 [] := by
  have hwf : wfBody [[104, 105, 13, 10], [46, 46, 97, 13, 10]] := by
    intro l hl
    rcases List.mem_cons.mp hl with h1 | h2
    · subst h1
      exact ⟨[104, 105], rfl, by decide, by decide⟩
    · simp only [List.mem_singleton] at h2
      subst h2
      exact ⟨[46, 46, 97], rfl, by decide, by decide⟩
  exact ⟨hwf, by decide, c1_dot_unstuffing _ hwf (by decide)⟩

/-- C2: feeding any well-formed body followed by `.\r\n` as data ends
data mode (`FeedOut.term`); the delivered bytes are `deliveredBody ls`,
a function of the body lines alone, so the terminating `.` CRLF is
never written to the body stream and nothing remains unconsumed; and a
stream whose very first bytes are `.\r\n` while `dataBytes = 0`
terminates immediately with an empty body, the tail being preserved
for command mode. -/
theorem c2_terminator (ls : List (List Nat)) (hwf : wfBody ls) (r : List Nat) :
    feedChunk 0 (ls.flatten ++ [46, 13, 10])
        = FeedOut.term (deliveredBody ls) (deliveredBody ls).length []
    ∧ feedChunk 0 ([46, 13, 10] ++ r) = FeedOut.term [] 0 r :=
  ⟨feedChunk_body ls hwf, feedChunk_initial_dot r⟩

/-- C2 witness: the body `hi\r\n` terminated by `.\r\n`, and an
immediate `.\r\n` followed by pipelined bytes `XY`. -/
theorem c2_witness :
    wfBody [[104, 105, 13, 10]]
    ∧ (feedChunk 0 [104, 105, 13, 10, 46, 13, 10]
          = FeedOut.term [104, 105, 13, 10] 4 []
       ∧ feedChunk 0 [46, 13, 10, 88, 89] = FeedOut.term [] 0 [88, 89]) := by
  have hwf : wfBody [[104, 105, 13, 10]] := by
    intro l hl
    simp only [List.mem_singleton] at hl
    subst hl
    exact ⟨[104, 105], rfl, by decide, by decide⟩
  exact ⟨hwf, c2_terminator _ hwf [88, 89]⟩

/-- C3 (amended): for every completed DATA reception over a well-formed
body other than the single blank line, with a configured positive limit
`max`, every post-unstuffing payload byte is delivered (the delivery
does not depend on the limit — `feedChunk` does not consult it),
`dataBytes` equals the payload length `N`, and the body stream's
`sizeExceeded` flag is true iff `N > max`.  The excluded
single-blank-line body loses its two bytes (`c3_counterexample`). -/
theorem c3_size_exceeded (ls : List (List Nat)) (hwf : wfBody ls)
    (hnb : ls ≠ [[13, 10]]) (max : Nat) (hmax : 0 < max) :
    feedChunk 0 (ls.flatten ++ [46, 13, 10])
        = FeedOut.term (unstuffBody ls) (unstuffBody ls).length []
    ∧ sizeExceeded (unstuffBody ls).length (startMaxBytes (some max))
        = decide (max < (unstuffBody ls).length) := by
  constructor
  · have hd : deliveredBody ls = unstuffBody ls := by
      unfold deliveredBody
      rw [if_neg hnb]
    rw [feedChunk_body ls hwf, hd]
  · have hsz : startMaxBytes (some max) = some max := by
      simp only [startMaxBytes]
      rw [if_neg (by omega)]
    rw [hsz]
    rfl

/-- C3 counterexample: for the stream `\r\n.\r\n` with configured limit
1, the post-unstuffing payload has 2 bytes, yet nothing is delivered
and `sizeExceeded` is computed as false even though 2 > 1: the parser
dropped payload bytes, violating the claim as stated. -/
theorem c3_counterexample :
    feedChunk 0 [13, 10, 46, 13, 10] = FeedOut.term [] 0 []
    ∧ (specUnstuff [13, 10]).length = 2
    ∧ sizeExceeded 0 (startMaxBytes (some 1)) = false
    ∧ 1 < (specUnstuff [13, 10]).length := by
  refine ⟨?_, by decide, by decide, by decide⟩
  have hwf : wfBody [[13, 10]] := by
    intro l hl
    simp only [List.mem_singleton] at hl
    subst hl
    exact ⟨[], rfl, by simp, by simp⟩
  have hb := feedChunk_body [[13, 10]] hwf
  simpa [deliveredBody] using hb

/-- C3 witness: the 4-byte body `hi\r\n` against limit 3 sets the flag,
and against limit 4 clears it. -/
theorem c3_witness :
    wfBody [[104, 105, 13, 10]]
    ∧ ([[104, 105, 13, 10]] : List (List Nat)) ≠ [[13, 10]]
    ∧ 0 < 3
    ∧ (feedChunk 0 [104, 105, 13, 10, 46, 13, 10]
          = FeedOut.term [104, 105, 13, 10] 4 []
       ∧ sizeExceeded 4 (startMaxBytes (some 3)) = true) := by
  have hwf : wfBody [[104, 105, 13, 10]] := by
    intro l hl
    simp only [List.mem_singleton] at hl
    subst hl
    exact ⟨[104, 105], rfl, by decide, by decide⟩
  exact ⟨hwf, by decide, by decide, c3_size_exceeded _ hwf (by decide) 3 (by decide)⟩

theorem sendCodes_eq : ∀ (codes : List Nat) (s : ConnState),
    sendCodes s codes = { s with closing := s.closing || codes.contains 421 } := by
  intro codes
  induction codes with
  | nil =>
    intro s
    simp [sendCodes]
  | cons c cs ih =>
    intro s
    show sendCodes (sendCode s c) cs = _
    rw [ih]
    unfold sendCode
    by_cases hc : c = 421
    · subst hc
      rw [if_pos rfl]
      simp [List.contains_cons]
    · rw [if_neg hc]
      have : ((c :: cs).contains 421) = cs.contains 421 := by
        simp [List.contains_cons, Ne.symm hc]
      rw [this]

theorem mem_replaceOrAppend (l : List Address) (a x : Address)
    (h : x ∈ replaceOrAppend l a) : x ∈ l ∨ x = a := by
  induction l with
  | nil =>
    right
    simpa [replaceOrAppend] using h
  | cons y ys ih =>
    simp only [replaceOrAppend] at h
    split at h
    · rcases List.mem_cons.mp h with h1 | h2
      · right; exact h1
      · left; exact List.mem_cons_of_mem _ h2
    · rcases List.mem_cons.mp h with h1 | h2
      · left; exact h1 ▸ List.mem_cons_self _ _
      · rcases ih h2 with h3 | h3
        · left; exact List.mem_cons_of_mem _ h3
        · right; exact h3

theorem replaceOrAppend_set : ∀ (l : List Address) (j : Nat) (a : Address) (hj : j < l.length),
    lowerNoDup l → (l.get ⟨j, hj⟩).address.toLower = a.address.toLower →
    replaceOrAppend l a = l.set j a := by
  intro l
  induction l with
  | nil =>
    intro j a hj
    exact absurd hj (by simp)
  | cons y ys ih =>
    intro j a hj hnd hget
    have hmap : ((y :: ys).map fun x => x.address.toLower).Nodup := hnd
    rw [List.map_cons] at hmap
    have hnd' := List.nodup_cons.mp hmap
    match j with
    | 0 =>
      have hget0 : y.address.toLower = a.address.toLower := hget
      simp only [replaceOrAppend]
      rw [if_pos hget0]
      rfl
    | Nat.succ j1 =>
      have hj1 : j1 < ys.length := by simpa using hj
      have hget1 : (ys.get ⟨j1, hj1⟩).address.toLower = a.address.toLower := hget
      have hmem : a.address.toLower ∈ ys.map fun x => x.address.toLower := by
        rw [← hget1]
        exact List.mem_map_of_mem _ (List.get_mem ys j1 hj1)
      have hne : ¬(y.address.toLower = a.address.toLower) := by
        intro he
        exact hnd'.1 (he ▸ hmem)
      simp only [replaceOrAppend]
      rw [if_neg hne]
      rw [ih j1 a hj1 hnd'.2 hget1]
      rfl

theorem lowerNoDup_replaceOrAppend : ∀ (l : List Address) (a : Address),
    lowerNoDup l → lowerNoDup (replaceOrAppend l a) := by
  intro l
  induction l with
  | nil =>
    intro a _
    simp [lowerNoDup, replaceOrAppend]
  | cons y ys ih =>
    intro a hnd
    have hmap : ((y :: ys).map fun x => x.address.toLower).Nodup := hnd
    rw [List.map_cons] at hmap
    have hnd' := List.nodup_cons.mp hmap
    simp only [replaceOrAppend]
    split
    · rename_i heq
      show ((a :: ys).map fun x => x.address.toLower).Nodup
      rw [List.map_cons]
      exact List.nodup_cons.mpr ⟨heq ▸ hnd'.1, hnd'.2⟩
    · rename_i hne
      have htail : lowerNoDup (replaceOrAppend ys a) := ih a hnd'.2
      show ((y :: replaceOrAppend ys a).map fun x => x.address.toLower).Nodup
      rw [List.map_cons]
      refine List.nodup_cons.mpr ⟨?_, htail⟩
      intro hmem
      rcases List.mem_map.mp hmem with ⟨z, hz, hzl⟩
      rcases mem_replaceOrAppend ys a z hz with h1 | h1
      · refine hnd'.1 ?_
        rw [← hzl]
        exact List.mem_map_of_mem _ h1
      · subst h1
        exact hne hzl.symm

theorem eq_of_mem_replaceOrAppend : ∀ (l : List Address) (a x : Address),
    lowerNoDup l → x ∈ replaceOrAppend l a →
    x.address.toLower = a.address.toLower → x = a := by
  intro l
  induction l with
  | nil =>
    intro a x _ hx _
    simpa [replaceOrAppend] using hx
  | cons y ys ih =>
    intro a x hnd hx hxl
    have hmap : ((y :: ys).map fun z => z.address.toLower).Nodup := hnd
    rw [List.map_cons] at hmap
    have hnd' := List.nodup_cons.mp hmap
    simp only [replaceOrAppend] at hx
    split at hx
    · rename_i heq
      rcases List.mem_cons.mp hx with h1 | h1
      · exact h1
      · exfalso
        have hm : x.address.toLower ∈ ys.map fun z => z.address.toLower :=
          List.mem_map_of_mem _ h1
        rw [hxl, ← heq] at hm
        exact hnd'.1 hm
    · rename_i hne
      rcases List.mem_cons.mp hx with h1 | h1
      · exact absurd (h1 ▸ hxl) hne
      · exact ih a x hnd'.2 h1 hxl

/-! Theorems for the connection claims C4 to C10. -/

/-- C4: an accepted RCPT whose lowercased address equals an earlier
recipient's replaces it at its position (`l.set j a`); the replacement
or push preserves case-insensitive uniqueness; and after the overwrite
the earlier entry is gone: any stored recipient sharing the new
address's lowercase form is the new entry itself.  The first conjunct
ties the loop to `handler_RCPT`'s accepted path. -/
theorem c4_rcpt_dedup :
    (∀ (cfg : Config) (s : ConnState) (a : Address),
      s.envelope.mailFrom.isNone = false →
      (dispatch cfg s (.rcpt (some a) true)).2.1.envelope.rcptTo
        = replaceOrAppend s.envelope.rcptTo a)
    ∧ (∀ (l : List Address) (j : Nat) (a : Address) (hj : j < l.length),
        lowerNoDup l → (l.get ⟨j, hj⟩).address.toLower = a.address.toLower →
        replaceOrAppend l a = l.set j a)
    ∧ (∀ (l : List Address) (a : Address), lowerNoDup l →
        lowerNoDup (replaceOrAppend l a))
    ∧ (∀ (l : List Address) (a x : Address), lowerNoDup l →
        x ∈ replaceOrAppend l a → x.address.toLower = a.address.toLower → x = a) := by
  refine ⟨?_, replaceOrAppend_set, lowerNoDup_replaceOrAppend, eq_of_mem_replaceOrAppend⟩
  intro cfg s a hmf
  simp [dispatch, hmf]

/-- C4 witness: a one-recipient envelope and a new RCPT differing only
in its arguments but with the same address: the old entry is replaced
in place. -/
theorem c4_witness :
    lowerNoDup [({ address := "a@x", sizeArg := none, requireTls := false } : Address)]
    ∧ replaceOrAppend [({ address := "a@x", sizeArg := none, requireTls := false } : Address)]
        { address := "a@x", sizeArg := some 5, requireTls := false }
      = [({ address := "a@x", sizeArg := some 5, requireTls := false } : Address)] := by
  have hnd : lowerNoDup [({ address := "a@x", sizeArg := none, requireTls := false } : Address)] := by
    simp [lowerNoDup]
  exact ⟨hnd, c4_rcpt_dedup.2.1 _ 0 _ (by simp) hnd rfl⟩

theorem runCmds_cons_cont (cfg : Config) (s : ConnState) (c : Cmd) (cs : List Cmd)
    {r : List Nat} {t : ConnState} (h : onCommand cfg s c = ⟨r, t, true⟩) :
    runCmds cfg s (c :: cs) = (r ++ (runCmds cfg t cs).1, (runCmds cfg t cs).2) := by
  simp only [runCmds, h]
  simp

theorem runCmds_cons_stop (cfg : Config) (s : ConnState) (c : Cmd) (cs : List Cmd)
    {r : List Nat} {t : ConnState} (h : onCommand cfg s c = ⟨r, t, false⟩) :
    runCmds cfg s (c :: cs) = (r, t) := by
  simp only [runCmds, h]
  simp

theorem runUnknown (cfg : Config) : ∀ (n : Nat) (s : ConnState), s.ready = true →
    s.unrecognizedCommands + (n + 1) = 10 →
    runCmds cfg s (List.replicate (n + 1) Cmd.unknown)
      = (List.replicate n 500 ++ [421],
         { s with unrecognizedCommands := 10, closing := true }) := by
  intro n
  induction n with
  | zero =>
    intro s hready hcnt
    have h9 : s.unrecognizedCommands = 9 := by omega
    simp [runCmds, onCommand, hready, h9, sendCodes, sendCode]
  | succ m ih =>
    intro s hready hcnt
    have hlt : ¬(10 ≤ s.unrecognizedCommands + 1) := by omega
    have hstep : onCommand cfg s Cmd.unknown
        = ⟨[500], { s with unrecognizedCommands := s.unrecognizedCommands + 1 }, true⟩ := by
      simp [onCommand, hready, hlt, sendCodes, sendCode]
    have hih := ih { s with unrecognizedCommands := s.unrecognizedCommands + 1 }
      hready
      (show s.unrecognizedCommands + 1 + (m + 1) = 10 by omega)
    rw [List.replicate_succ, runCmds_cons_cont cfg s Cmd.unknown _ hstep, hih]
    simp [List.replicate_succ]

/-- C5: while the connection is ready, an unrecognized command taking the
counter to at most 9 is answered 500 (callback invoked); one taking it to
10 is answered 421, the connection is closed and the callback is not
invoked; ten unknown commands from a fresh counter produce nine 500s then
a 421 with the connection closing; and a completing DATA transaction
resets the counter to zero. -/
theorem c5_unknown_commands :
    (∀ (cfg : Config) (s : ConnState), s.ready = true →
      s.unrecognizedCommands + 1 ≤ 9 →
      onCommand cfg s .unknown
        = ⟨[500], { s with unrecognizedCommands := s.unrecognizedCommands + 1 }, true⟩)
    ∧ (∀ (cfg : Config) (s : ConnState), s.ready = true →
      s.unrecognizedCommands = 9 →
      onCommand cfg s .unknown
        = ⟨[421], { s with unrecognizedCommands := 10, closing := true }, false⟩)
    ∧ (∀ (cfg : Config) (s : ConnState), s.ready = true →
      s.unrecognizedCommands = 0 →
      runCmds cfg s (List.replicate 10 Cmd.unknown)
        = (List.replicate 9 500 ++ [421],
           { s with unrecognizedCommands := 10, closing := true }))
    ∧ (∀ (cfg : Config) (s : ConnState) (ok : Bool),
      s.envelope.rcptTo.isEmpty = false →
      (dispatch cfg s (.data ok)).2.1.unrecognizedCommands = 0) := by
  refine ⟨?_, ?_, ?_, ?_⟩
  · intro cfg s hready hle
    have hlt : ¬(10 ≤ s.unrecognizedCommands + 1) := by omega
    simp [onCommand, hready, hlt, sendCodes, sendCode]
  · intro cfg s hready h9
    simp [onCommand, hready, h9, sendCodes, sendCode]
  · intro cfg s hready h0
    exact runUnknown cfg 9 s hready (by omega)
  · intro cfg s ok hne
    simp [dispatch, hne, resetSession]

/-- C5 witness: from the fresh post-greeting state, ten unknown commands
give nine 500s then 421 and close; a completed DATA from a one-recipient
envelope leaves the counter at zero; single steps at counters 0 and 9
give 500 and 421 respectively. -/
theorem c5_witness :
    (initState cfgW).ready = true
    ∧ (initState cfgW).unrecognizedCommands = 0
    ∧ runCmds cfgW (initState cfgW) (List.replicate 10 Cmd.unknown)
        = (List.replicate 9 500 ++ [421],
           { initState cfgW with unrecognizedCommands := 10, closing := true })
    ∧ onCommand cfgW (initState cfgW) .unknown
        = ⟨[500], { initState cfgW with unrecognizedCommands := 1 }, true⟩
    ∧ onCommand cfgW { initState cfgW with unrecognizedCommands := 9 } .unknown
        = ⟨[421], { initState cfgW with unrecognizedCommands := 10, closing := true }, false⟩
    ∧ stData.envelope.rcptTo.isEmpty = false
    ∧ (dispatch cfgW stData (.data true)).2.1.unrecognizedCommands = 0 :=
  ⟨rfl, rfl,
   c5_unknown_commands.2.2.1 cfgW (initState cfgW) rfl rfl,
   c5_unknown_commands.1 cfgW (initState cfgW) rfl (by decide),
   c5_unknown_commands.2.1 cfgW { initState cfgW with unrecognizedCommands := 9 } rfl rfl,
   rfl,
   c5_unknown_commands.2.2.2 cfgW stData true rfl⟩

/-- C6: a MAIL FROM whose parsed address carries the REQUIRETLS
parameter, issued while the session is not secure, is answered 530 and
leaves the state (in particular `envelope.mailFrom`) unchanged.  Stated
about the spec-modelled `handlerMailRequireTls`, the branch being absent
from the source. -/
theorem c6_requiretls (cfg : Config) (s : ConnState) (a : Address) (accept : Bool)
    (hreq : a.requireTls = true) (hsec : s.secure = false) :
    handlerMailRequireTls cfg s (some a) accept = ([530], s, true)
    ∧ (handlerMailRequireTls cfg s (some a) accept).2.1.envelope.mailFrom
        = s.envelope.mailFrom := by
  have h : handlerMailRequireTls cfg s (some a) accept = ([530], s, true) := by
    simp [handlerMailRequireTls, hreq, hsec]
  exact ⟨h, by rw [h]⟩

/-- C6 witness: the REQUIRETLS address on the fresh cleartext session is
refused with 530 and the envelope keeps no sender. -/
theorem c6_witness :
    addrTls.requireTls = true ∧ (initState cfgW).secure = false
    ∧ handlerMailRequireTls cfgW (initState cfgW) (some addrTls) true
        = ([530], initState cfgW, true) :=
  ⟨rfl, rfl, (c6_requiretls cfgW (initState cfgW) addrTls true rfl rfl).1⟩

theorem envInv_dispatch (cfg : Config) (s : ConnState) (cmd : Cmd)
    (h : s.envelope.rcptTo ≠ [] → s.envelope.mailFrom.isSome = true) :
    (dispatch cfg s cmd).2.1.envelope.rcptTo ≠ [] →
    (dispatch cfg s cmd).2.1.envelope.mailFrom.isSome = true := by
  cases cmd with
  | helo h0 => simp [dispatch, resetSession]
  | rset => simp [dispatch, resetSession]
  | noop => exact h
  | quit => exact h
  | starttls =>
    simp only [dispatch]
    split_ifs <;> exact h
  | auth o =>
    rcases o with _ | u <;> simp only [dispatch] <;> split_ifs <;> exact h
  | mail parsed accept =>
    rcases parsed with _ | a
    · exact h
    · simp only [dispatch]
      split_ifs <;> first | exact h | (intro _; rfl)
  | rcpt parsed accept =>
    rcases parsed with _ | a
    · exact h
    · simp only [dispatch]
      split_ifs with h1 h2
      · exact h
      · intro _
        show s.envelope.mailFrom.isSome = true
        cases hm : s.envelope.mailFrom with
        | none => exact absurd (show s.envelope.mailFrom.isNone = true by rw [hm]; rfl) h1
        | some a0 => rfl
      · exact h
  | data b =>
    simp only [dispatch]
    split_ifs with h1
    · exact h
    all_goals intro hne; exact absurd rfl hne
  | xclientDeauth =>
    simp only [dispatch]
    split_ifs <;> exact h
  | xclientLogin o =>
    rcases o with _ | u <;> simp only [dispatch] <;> split_ifs <;> exact h
  | unknown => exact h
  | http => exact h

theorem envInv_onCommand (cfg : Config) (s : ConnState) (cmd : Cmd)
    (h : s.envelope.rcptTo ≠ [] → s.envelope.mailFrom.isSome = true) :
    (onCommand cfg s cmd).state.envelope.rcptTo ≠ [] →
    (onCommand cfg s cmd).state.envelope.mailFrom.isSome = true := by
  have hsend : ∀ (x : ConnState) (codes : List Nat),
      sendCodes x codes = { x with closing := x.closing || codes.contains 421 } :=
    fun x codes => sendCodes_eq codes x
  simp only [onCommand]
  split_ifs <;> rw [hsend] <;>
    first
      | exact h
      | exact envInv_dispatch cfg _ cmd h

theorem envInv_reachable (cfg : Config) (s : ConnState) (hr : Reachable cfg s) :
    s.envelope.rcptTo ≠ [] → s.envelope.mailFrom.isSome = true := by
  induction hr with
  | start => intro hne; exact absurd rfl hne
  | step t cmd _ ih => exact envInv_onCommand cfg t cmd ih

/-- C7: in every reachable state a non-empty recipient list implies a
set sender; RCPT while `mailFrom` is unset is answered 503 with the
state unchanged; and HELO, RSET and a completing DATA all leave the
empty envelope. -/
theorem c7_envelope_invariant :
    (∀ (cfg : Config) (s : ConnState), Reachable cfg s →
      s.envelope.rcptTo ≠ [] → s.envelope.mailFrom.isSome = true)
    ∧ (∀ (cfg : Config) (s : ConnState) (a : Address) (accept : Bool),
      s.envelope.mailFrom.isNone = true →
      dispatch cfg s (.rcpt (some a) accept) = ([503], s, true))
    ∧ (∀ (cfg : Config) (s : ConnState) (h : String),
      (dispatch cfg s (.helo h)).2.1.envelope = ⟨none, []⟩)
    ∧ (∀ (cfg : Config) (s : ConnState),
      (dispatch cfg s .rset).2.1.envelope = ⟨none, []⟩)
    ∧ (∀ (cfg : Config) (s : ConnState) (ok : Bool),
      s.envelope.rcptTo.isEmpty = false →
      (dispatch cfg s (.data ok)).2.1.envelope = ⟨none, []⟩) := by
  refine ⟨fun cfg s hr => envInv_reachable cfg s hr, ?_, ?_, ?_, ?_⟩
  · intro cfg s a accept hmf
    simp [dispatch, hmf]
  · intro cfg s h0
    simp [dispatch, resetSession]
  · intro cfg s
    simp [dispatch, resetSession]
  · intro cfg s ok hne
    simp [dispatch, hne, resetSession]

/-- C7 witness: the reachable state after HELO, MAIL, RCPT has a
recipient and hence a sender; RCPT on the fresh envelope is refused 503;
HELO and RSET clear the envelope; DATA completion clears it. -/
theorem c7_witness :
    stRcpt.envelope.rcptTo ≠ []
    ∧ stRcpt.envelope.mailFrom.isSome = true
    ∧ (initState cfgW).envelope.mailFrom.isNone = true
    ∧ dispatch cfgW (initState cfgW) (.rcpt (some addrW) true)
        = ([503], initState cfgW, true)
    ∧ (dispatch cfgW (initState cfgW) (.helo "h")).2.1.envelope = ⟨none, []⟩
    ∧ (dispatch cfgW (initState cfgW) .rset).2.1.envelope = ⟨none, []⟩
    ∧ stData.envelope.rcptTo.isEmpty = false
    ∧ (dispatch cfgW stData (.data true)).2.1.envelope = ⟨none, []⟩ :=
  have hre : Reachable cfgW stRcpt :=
    Reachable.step stMail (.rcpt (some addrW) true)
      (Reachable.step stHelo (.mail (some addrW) true)
        (Reachable.step (initState cfgW) (.helo "c") Reachable.start))
  have hne : stRcpt.envelope.rcptTo ≠ [] := by
    rw [show stRcpt.envelope.rcptTo = [addrW] from rfl]
    exact List.cons_ne_nil _ _
  ⟨hne, c7_envelope_invariant.1 cfgW stRcpt hre hne, rfl,
   c7_envelope_invariant.2.1 cfgW (initState cfgW) addrW true rfl,
   c7_envelope_invariant.2.2.1 cfgW (initState cfgW) "h",
   c7_envelope_invariant.2.2.2.1 cfgW (initState cfgW),
   rfl,
   c7_envelope_invariant.2.2.2.2 cfgW stData true rfl⟩

/-! Unknown-command counter (claim C5). -/

/-- C8 counterexample: a DATA transaction whose callback reports failure
(450 sent, message rejected) still increments the transaction counter,
because `handler_DATA`'s completion closure calls `close()` on both the
success and the error path. -/
theorem c8_counterexample :
    stData.transactionCounter = 0
    ∧ (dispatch cfgW stData (.data false)).1 = [354, 450]
    ∧ (dispatch cfgW stData (.data false)).2.1.transactionCounter = 1 :=
  ⟨rfl, rfl, rfl⟩

theorem dispatch_counter (cfg : Config) (s : ConnState) (cmd : Cmd)
    (hnd : ∀ b, cmd ≠ .data b) :
    (dispatch cfg s cmd).2.1.transactionCounter = s.transactionCounter := by
  cases cmd with
  | helo h0 => rfl
  | rset => rfl
  | noop => rfl
  | quit => rfl
  | starttls =>
    simp only [dispatch]
    split_ifs <;> rfl
  | auth o =>
    rcases o with _ | u <;> simp only [dispatch] <;> split_ifs <;> rfl
  | mail parsed accept =>
    rcases parsed with _ | a
    · rfl
    · simp only [dispatch]
      split_ifs <;> rfl
  | rcpt parsed accept =>
    rcases parsed with _ | a
    · rfl
    · simp only [dispatch]
      split_ifs <;> rfl
  | data b => exact absurd rfl (hnd b)
  | xclientDeauth =>
    simp only [dispatch]
    split_ifs <;> rfl
  | xclientLogin o =>
    rcases o with _ | u <;> simp only [dispatch] <;> split_ifs <;> rfl
  | unknown => rfl
  | http => rfl

/-- C8 (amended): a DATA completion from a non-empty recipient list sends
354 then the per-recipient verdicts, increments the transaction counter,
zeroes the unrecognized-command counter and resets the envelope
regardless of the callback verdict; and no command other than DATA ever
changes the transaction counter. -/
theorem c8_transaction_counter :
    (∀ (cfg : Config) (s : ConnState) (ok : Bool),
      s.envelope.rcptTo.isEmpty = false →
      dispatch cfg s (.data ok)
        = (354 :: (if cfg.lmtp
              then List.replicate s.envelope.rcptTo.length (if ok then 250 else 450)
              else [if ok then 250 else 450]),
           resetSession { s with transactionCounter := s.transactionCounter + 1,
                                 unrecognizedCommands := 0 }, true))
    ∧ (∀ (cfg : Config) (s : ConnState) (cmd : Cmd), (∀ b, cmd ≠ .data b) →
      (onCommand cfg s cmd).state.transactionCounter = s.transactionCounter) := by
  refine ⟨?_, ?_⟩
  · intro cfg s ok hne
    simp [dispatch, hne]
  · intro cfg s cmd hnd
    have hsend : ∀ (x : ConnState) (codes : List Nat),
        sendCodes x codes = { x with closing := x.closing || codes.contains 421 } :=
      fun x codes => sendCodes_eq codes x
    simp only [onCommand]
    split_ifs <;> rw [hsend] <;>
      first
        | rfl
        | exact dispatch_counter cfg _ cmd hnd

/-- C8 witness: both conjuncts applied at the one-recipient fixture and
at a NOOP. -/
theorem c8_witness :
    stData.envelope.rcptTo.isEmpty = false
    ∧ dispatch cfgW stData (.data true)
        = (354 :: (if cfgW.lmtp
              then List.replicate stData.envelope.rcptTo.length (if true then 250 else 450)
              else [if true then 250 else 450]),
           resetSession { stData with transactionCounter := stData.transactionCounter + 1,
                                      unrecognizedCommands := 0 }, true)
    ∧ (onCommand cfgW stData .noop).state.transactionCounter = stData.transactionCounter :=
  ⟨rfl,
   c8_transaction_counter.1 cfgW stData true rfl,
   c8_transaction_counter.2 cfgW stData .noop (fun b h => Cmd.noConfusion h)⟩

/-- C9 counterexample, refuting both halves of the claim.  First half:
after HELO and a successful AUTH, `XCLIENT LOGIN=` (empty value)
deauthenticates the session and a second AUTH succeeds with 235, so
within one connection `session.user` becomes set twice.  Second half:
under `cfg9b` (STARTTLS offered, insecure AUTH disallowed) a non-empty
`XCLIENT LOGIN=x1` sets `session.user` through `SASL_XCLIENT` with no
gate, and the AUTH that follows in that reachable state is answered
538 — not 503. -/
theorem c9_counterexample :
    (Reachable cfg9 st9d
      ∧ st9b.user = some "u1"
      ∧ (onCommand cfg9 st9b .xclientDeauth).responses = [220]
      ∧ st9c.user = none
      ∧ (onCommand cfg9 st9c (.auth (some "u2"))).responses = [235]
      ∧ st9d.user = some "u2")
    ∧ (Reachable cfg9b st9e
      ∧ st9e.user = some "x1"
      ∧ onCommand cfg9b st9e (.auth (some "x2")) = ⟨[538], st9e, true⟩) :=
  ⟨⟨Reachable.step st9c (.auth (some "u2"))
      (Reachable.step st9b .xclientDeauth
        (Reachable.step st9a (.auth (some "u1"))
          (Reachable.step (initState cfg9) (.helo "c") Reachable.start))),
    rfl, rfl, rfl, rfl, rfl⟩,
   ⟨Reachable.step ((onCommand cfg9b (initState cfg9b) (.helo "c")).state)
      (.xclientLogin (some "x1"))
      (Reachable.step (initState cfg9b) (.helo "c") Reachable.start),
    rfl, rfl⟩⟩

theorem onCommand_auth_user_set (cfg : Config) (s : ConnState) (u : String)
    (o : Option String) (hready : s.ready = true) (hu : s.user = some u) :
    onCommand cfg s (.auth o) = ⟨[503], s, true⟩
    ∨ onCommand cfg s (.auth o) = ⟨[538], s, true⟩ := by
  have hsome : s.user.isSome = true := by rw [hu]; rfl
  have hNone : s.user.isNone = false := by rw [hu]; rfl
  have h503 : sendCodes s [503] = s := by
    rw [sendCodes_eq]
    simp [List.contains_cons]
  have h538 : sendCodes s [538] = s := by
    rw [sendCodes_eq]
    simp [List.contains_cons]
  by_cases hN : s.hostNameAppearsAs.isNone = true
  · left
    simp [onCommand, hready, hN, hNone, h503, isAuthCmd, needsHost]
  · by_cases hg : (!s.secure && cfg.starttlsAvailable && !cfg.allowInsecureAuth) = true
    · right
      simp [onCommand, dispatch, hready, hN, hNone, hsome, hg, h538,
        isAuthCmd, needsHost, needsAuth]
    · left
      have hg2 : (!s.secure && cfg.starttlsAvailable && !cfg.allowInsecureAuth) = false := by
        simpa using hg
      simp [onCommand, dispatch, hready, hN, hNone, hsome, hg2, h503,
        isAuthCmd, needsHost, needsAuth]

theorem dispatch_user_cases (cfg : Config) (x : ConnState) (cmd : Cmd) :
    (dispatch cfg x cmd).2.1.user = x.user
    ∨ (∃ u, x.user = none ∧ cmd = .auth (some u)
        ∧ (dispatch cfg x cmd).2.1.user = some u)
    ∨ (cmd = .xclientDeauth ∧ (dispatch cfg x cmd).2.1.user = none)
    ∨ (∃ u, cmd = .xclientLogin (some u)
        ∧ (dispatch cfg x cmd).2.1.user = some u) := by
  cases cmd with
  | auth o =>
    rcases o with _ | u
    · simp only [dispatch]
      split_ifs <;> exact Or.inl rfl
    · simp only [dispatch]
      split_ifs with h1 h2
      · exact Or.inl rfl
      · exact Or.inl rfl
      · refine Or.inr (Or.inl ⟨u, ?_, by trivial, rfl⟩)
        have h2' : x.user.isSome = false := by simpa using h2
        exact Option.not_isSome_iff_eq_none.mp (by simp [h2'])
  | xclientDeauth =>
    simp only [dispatch]
    split_ifs
    · exact Or.inl rfl
    · exact Or.inl rfl
    · exact Or.inr (Or.inr (Or.inl ⟨by trivial, rfl⟩))
  | xclientLogin o =>
    rcases o with _ | u
    · simp only [dispatch]
      split_ifs <;> exact Or.inl rfl
    · simp only [dispatch]
      split_ifs
      · exact Or.inl rfl
      · exact Or.inl rfl
      · exact Or.inr (Or.inr (Or.inr ⟨u, by trivial, rfl⟩))
  | helo h0 => exact Or.inl rfl
  | mail parsed accept =>
    rcases parsed with _ | a
    · exact Or.inl rfl
    · simp only [dispatch]
      split_ifs <;> exact Or.inl rfl
  | rcpt parsed accept =>
    rcases parsed with _ | a
    · exact Or.inl rfl
    · simp only [dispatch]
      split_ifs <;> exact Or.inl rfl
  | data b =>
    simp only [dispatch]
    split_ifs <;> exact Or.inl rfl
  | starttls =>
    simp only [dispatch]
    split_ifs <;> exact Or.inl rfl
  | rset => exact Or.inl rfl
  | noop => exact Or.inl rfl
  | quit => exact Or.inl rfl
  | unknown => exact Or.inl rfl
  | http => exact Or.inl rfl

/-- C9 (amended): an AUTH issued while `session.user` is set never
changes it — it is rejected with 503, or with 538 when the
insecure-STARTTLS gate (which precedes the already-authenticated check)
fires; and a command changes `session.user` only by a successful AUTH
from the unset state, by the `XCLIENT LOGIN=` deauthentication clearing
it, or by a successful non-empty `XCLIENT LOGIN=` setting it from any
state — so `session.user` does not become set exactly once. -/
theorem c9_auth_once :
    (∀ (cfg : Config) (s : ConnState) (u : String) (o : Option String),
      s.ready = true → s.user = some u →
      onCommand cfg s (.auth o) = ⟨[503], s, true⟩
      ∨ onCommand cfg s (.auth o) = ⟨[538], s, true⟩)
    ∧ (∀ (cfg : Config) (s : ConnState) (cmd : Cmd),
      (onCommand cfg s cmd).state.user = s.user
      ∨ (∃ u, s.user = none ∧ cmd = .auth (some u)
          ∧ (onCommand cfg s cmd).state.user = some u)
      ∨ (cmd = .xclientDeauth ∧ (onCommand cfg s cmd).state.user = none)
      ∨ (∃ u, cmd = .xclientLogin (some u)
          ∧ (onCommand cfg s cmd).state.user = some u)) := by
  refine ⟨?_, ?_⟩
  · intro cfg s u o hready hu
    exact onCommand_auth_user_set cfg s u o hready hu
  · intro cfg s cmd
    have hsend : ∀ (x : ConnState) (codes : List Nat),
        (sendCodes x codes).user = x.user := by
      intro x codes
      rw [sendCodes_eq]
    have hdisp : ∀ (x : ConnState) (w : Option String),
        (sendCodes (dispatch cfg x cmd).2.1 (dispatch cfg x cmd).1).user = w →
        x.user = s.user →
        (w = s.user
        ∨ (∃ u, s.user = none ∧ cmd = .auth (some u) ∧ w = some u)
        ∨ (cmd = .xclientDeauth ∧ w = none)
        ∨ (∃ u, cmd = .xclientLogin (some u) ∧ w = some u)) := by
      intro x w hw hx
      rcases dispatch_user_cases cfg x cmd with h | ⟨u, h1, h2, h3⟩ | ⟨h2, h3⟩ | ⟨u, h2, h3⟩
      · exact Or.inl (hw.symm.trans (((hsend _ _).trans h).trans hx))
      · exact Or.inr (Or.inl ⟨u, hx.symm.trans h1, h2, hw.symm.trans ((hsend _ _).trans h3)⟩)
      · exact Or.inr (Or.inr (Or.inl ⟨h2, hw.symm.trans ((hsend _ _).trans h3)⟩))
      · exact Or.inr (Or.inr (Or.inr ⟨u, h2, hw.symm.trans ((hsend _ _).trans h3)⟩))
    generalize hU : (onCommand cfg s cmd).state.user = w
    simp only [onCommand] at hU
    repeat' split at hU
    all_goals
      first
        | exact Or.inl (hU.symm.trans (hsend _ _))
        | exact hdisp _ _ hU rfl

/-- C9 witness: after HELO and AUTH the user is set and the connection
ready, and a further AUTH draws 503 or 538 leaving the state intact;
a NOOP leaves the user unchanged. -/
theorem c9_witness :
    st9b.ready = true
    ∧ st9b.user = some "u1"
    ∧ (onCommand cfg9 st9b (.auth (some "u2")) = ⟨[503], st9b, true⟩
       ∨ onCommand cfg9 st9b (.auth (some "u2")) = ⟨[538], st9b, true⟩)
    ∧ ((onCommand cfg9 st9b .noop).state.user = st9b.user
      ∨ (∃ u, st9b.user = none ∧ Cmd.noop = .auth (some u)
          ∧ (onCommand cfg9 st9b .noop).state.user = some u)
      ∨ (Cmd.noop = .xclientDeauth ∧ (onCommand cfg9 st9b .noop).state.user = none)
      ∨ (∃ u, Cmd.noop = .xclientLogin (some u)
          ∧ (onCommand cfg9 st9b .noop).state.user = some u)) :=
  ⟨rfl, rfl, c9_auth_once.1 cfg9 st9b "u1" (some "u2") rfl rfl,
   c9_auth_once.2 cfg9 st9b .noop⟩

theorem sendCodes_closing_of_mem (codes : List Nat) (s : ConnState)
    (h : 421 ∈ codes) : (sendCodes s codes).closing = true := by
  rw [sendCodes_eq]
  have hc : codes.contains 421 = true := by
    show codes.elem 421 = true
    exact List.elem_eq_true_of_mem h
  show (s.closing || codes.contains 421) = true
  rw [hc, Bool.or_true]

theorem dispatch_no421 (cfg : Config) (s : ConnState) (cmd : Cmd) :
    ¬((421 : Nat) ∈ (dispatch cfg s cmd).1) := by
  cases cmd with
  | helo h0 => simp [dispatch]
  | rset => simp [dispatch]
  | noop => simp [dispatch]
  | quit => simp [dispatch]
  | starttls =>
    simp only [dispatch]
    split_ifs <;> simp
  | auth o =>
    rcases o with _ | u <;> simp only [dispatch] <;> split_ifs <;> simp
  | mail parsed accept =>
    rcases parsed with _ | a
    · simp [dispatch]
    · simp only [dispatch]
      split_ifs <;> simp
  | rcpt parsed accept =>
    rcases parsed with _ | a
    · simp [dispatch]
    · simp only [dispatch]
      split_ifs <;> simp
  | data b =>
    simp only [dispatch]
    cases b <;> cases hl : cfg.lmtp <;> split_ifs <;>
      simp [List.mem_replicate]
  | xclientDeauth =>
    simp only [dispatch]
    split_ifs <;> simp
  | xclientLogin o =>
    rcases o with _ | u <;> simp only [dispatch] <;> split_ifs <;> simp
  | unknown => simp [dispatch]
  | http => simp [dispatch]

theorem onCommand_421 (cfg : Config) (s : ConnState) (cmd : Cmd)
    (h : (421 : Nat) ∈ (onCommand cfg s cmd).responses) :
    (onCommand cfg s cmd).responses = [421]
    ∧ (onCommand cfg s cmd).cont = false
    ∧ (onCommand cfg s cmd).state.closing = true := by
  simp only [onCommand] at h ⊢
  split_ifs at h ⊢ <;>
    first
      | (refine ⟨rfl, rfl, ?_⟩
         rw [sendCodes_eq]
         simp [List.contains_cons])
      | exact absurd h (dispatch_no421 cfg _ cmd)
      | simp at h

theorem runCmds_421_last (cfg : Config) : ∀ (cmds : List Cmd) (s : ConnState) (i : Nat),
    (runCmds cfg s cmds).1.get? i = some 421 →
    i + 1 = (runCmds cfg s cmds).1.length := by
  intro cmds
  induction cmds with
  | nil =>
    intro s i h
    simp [runCmds] at h
  | cons c cs ih =>
    intro s i h
    have heta : onCommand cfg s c
        = ⟨(onCommand cfg s c).responses, (onCommand cfg s c).state,
           (onCommand cfg s c).cont⟩ := rfl
    by_cases hc : (onCommand cfg s c).cont = true
    · rw [hc] at heta
      rw [runCmds_cons_cont cfg s c cs heta] at h ⊢
      rcases Nat.lt_or_ge i (onCommand cfg s c).responses.length with hi | hi
      · rw [List.get?_append hi] at h
        have hmem : (421 : Nat) ∈ (onCommand cfg s c).responses := List.get?_mem h
        have hstop := (onCommand_421 cfg s c hmem).2.1
        rw [hc] at hstop
        exact Bool.noConfusion hstop
      · rw [List.get?_append_right hi] at h
        have hrec := ih (onCommand cfg s c).state (i - (onCommand cfg s c).responses.length) h
        rw [List.length_append]
        omega
    · have hcf : (onCommand cfg s c).cont = false := by
        cases hcc : (onCommand cfg s c).cont
        · rfl
        · exact absurd hcc hc
      rw [hcf] at heta
      rw [runCmds_cons_stop cfg s c cs heta] at h ⊢
      have hmem : (421 : Nat) ∈ (onCommand cfg s c).responses := List.get?_mem h
      have h4 := onCommand_421 cfg s c hmem
      rw [h4.1] at h ⊢
      rcases List.get?_eq_some.mp h with ⟨hlen, _⟩
      have hi1 : i < 1 := by simpa using hlen
      simp
      omega

/-- C10: `send(421, ...)` always marks the connection closing; any
dispatch step that emits a 421 emits nothing else, does not invoke the
parser callback, and leaves the connection closing; hence over any
serialised command sequence, a 421 response can only be the very last
response of the connection. -/
theorem c10_421_closes :
    (∀ (s : ConnState) (codes : List Nat), 421 ∈ codes →
      (sendCodes s codes).closing = true)
    ∧ (∀ (cfg : Config) (s : ConnState) (cmd : Cmd),
      (421 : Nat) ∈ (onCommand cfg s cmd).responses →
      (onCommand cfg s cmd).responses = [421]
      ∧ (onCommand cfg s cmd).cont = false
      ∧ (onCommand cfg s cmd).state.closing = true)
    ∧ (∀ (cfg : Config) (cmds : List Cmd) (s : ConnState) (i : Nat),
      (runCmds cfg s cmds).1.get? i = some 421 →
      i + 1 = (runCmds cfg s cmds).1.length) :=
  ⟨fun s codes h => sendCodes_closing_of_mem codes s h,
   fun cfg s cmd h => onCommand_421 cfg s cmd h,
   fun cfg cmds s i h => runCmds_421_last cfg cmds s i h⟩

/-- C10 witness: on a not-yet-ready connection a NOOP draws the
early-talker 421, which closes the connection, suppresses the callback,
and is the last response of the run. -/
theorem c10_witness :
    (421 : Nat) ∈ [421]
    ∧ (sendCodes stOff [421]).closing = true
    ∧ (421 : Nat) ∈ (onCommand cfgW stOff .noop).responses
    ∧ (onCommand cfgW stOff .noop).responses = [421]
    ∧ (onCommand cfgW stOff .noop).cont = false
    ∧ (onCommand cfgW stOff .noop).state.closing = true
    ∧ (runCmds cfgW stOff [Cmd.noop, Cmd.noop]).1.get? 0 = some 421
    ∧ 0 + 1 = (runCmds cfgW stOff [Cmd.noop, Cmd.noop]).1.length :=
  have h1 : (421 : Nat) ∈ [421] := by decide
  have h3 : (421 : Nat) ∈ (onCommand cfgW stOff .noop).responses := by decide
  have h7 : (runCmds cfgW stOff [Cmd.noop, Cmd.noop]).1.get? 0 = some 421 := by decide
  have h4 := c10_421_closes.2.1 cfgW stOff .noop h3
  ⟨h1, c10_421_closes.1 stOff [421] h1, h3, h4.1, h4.2.1, h4.2.2,
   h7, c10_421_closes.2.2 cfgW [Cmd.noop, Cmd.noop] stOff 0 h7⟩
